import Mathlib

/-!
Shallow embedding of the finance-tracker core: the local record store
(src/src/lib/localStorage.ts), the event bus (eventBus.ts), the data
service dashboard aggregation (dataService.ts, Supabase path), and the
monthly trend bucketing (MonthlyTrendChart.tsx), together with proofs of
the specification claims about them.

Conventions of the embedding:
  - JS numbers carrying money amounts are modelled as rationals.
  - localStorage is modelled as a Store record whose two fields are the
    parsed contents of the two fixed keys; a field is none when
    localStorage.getItem returns null for that key.
  - String identity (===) on strings and enum strings is propositional
    equality; the kind union is the two-constructor enum TxType.
  - Transaction carries the currency field of the later schema
    (dataService.ts and MonthlyTrendChart.tsx read t.currency); the
    localStorage functions never read it, exactly as in the source.
  - Date.now-based id generation and new Date().toISOString() are
    modelled as explicit parameters (newId, now); created_at is the
    numeric timestamp that new Date(x).getTime() yields for it.
-/

namespace FinTrack

/-- The kind union of the source: the string union of income and expense. -/
inductive TxType where
  | income : TxType
  | expense : TxType
deriving DecidableEq, Repr

/-- Category record of localStorage.ts (interface Category). -/
structure Category where
  id : String
  name : String
  type : TxType
  budget_limit : Option ℚ
  user_id : String
  created_at : Nat
deriving DecidableEq, Repr

/-- Transaction record; fields of localStorage.ts interface Transaction plus
the currency field of the later schema used by dataService.ts. -/
structure Transaction where
  id : String
  description : String
  amount : ℚ
  type : TxType
  currency : String
  created_at : Nat
  user_id : String
  category_id : Option String
deriving DecidableEq, Repr

/-- The two localStorage keys: parsed content of bolt_finance_categories and
bolt_finance_transactions; none models getItem returning null. -/
structure Store where
  categoriesKey : Option (List Category)
  transactionsKey : Option (List Transaction)
deriving DecidableEq, Repr

/-- reduce((sum, t) => sum + t.amount, 0) over a list of transactions. -/
def sumAmounts (l : List Transaction) : ℚ :=
  (l.map Transaction.amount).sum

/-- LocalStorageService.getCategories: parse the key (null gives []) and
filter cat.user_id === userId. -/
def getCategories (userId : String) (s : Store) : List Category :=
  match s.categoriesKey with
  | none => []
  | some allCategories => allCategories.filter (fun cat => decide (cat.user_id = userId))

/-- Stable insertion (descending by created_at) used to model the stable
Array.prototype.sort with comparator (a, b) => bTime - aTime. -/
def insertByDesc (t : Transaction) : List Transaction → List Transaction
  | [] => [t]
  | x :: xs => if x.created_at ≤ t.created_at then t :: x :: xs else x :: insertByDesc t xs

/-- Stable sort by created_at descending, the effect of
sort((a, b) => new Date(b.created_at).getTime() - new Date(a.created_at).getTime()). -/
def sortByCreatedDesc : List Transaction → List Transaction
  | [] => []
  | x :: xs => insertByDesc x (sortByCreatedDesc xs)

/-- LocalStorageService.getTransactions: filter tx.user_id === userId, then
sort by created_at descending. -/
def getTransactions (userId : String) (s : Store) : List Transaction :=
  match s.transactionsKey with
  | none => []
  | some allTransactions =>
      sortByCreatedDesc (allTransactions.filter (fun tx => decide (tx.user_id = userId)))

/-- LocalStorageService.saveCategory; newId and now stand for generateId()
and new Date().toISOString(). Returns the saved category and the new store. -/
def saveCategory (category : Category) (newId : String) (now : Nat) (s : Store) :
    Category × Store :=
  let categories := s.categoriesKey.getD []
  if category.id = "" then
    let category1 := { category with id := newId, created_at := now }
    (category1, { s with categoriesKey := some (categories ++ [category1]) })
  else
    match categories.findIdx? (fun c => decide (c.id = category.id)) with
    | some index => (category, { s with categoriesKey := some (categories.set index category) })
    | none => (category, { s with categoriesKey := some (categories ++ [category]) })

/-- The per-transaction clearing step of
LocalStorageService.removeDeletedCategoryFromTransactions. -/
def clearCat (categoryId : String) (t : Transaction) : Transaction :=
  if t.category_id = some categoryId then { t with category_id := none } else t

/-- LocalStorageService.removeDeletedCategoryFromTransactions: early return
when the transactions key is null, else map the clearing step over all
stored transactions (no owner filter). -/
def removeDeletedCategoryFromTransactions (categoryId : String) (s : Store) : Store :=
  match s.transactionsKey with
  | none => s
  | some transactions =>
      { s with transactionsKey := some (transactions.map (clearCat categoryId)) }

/-- LocalStorageService.deleteCategory: early return when the categories key
is null; else drop categories with the id and run the cascade. -/
def deleteCategory (categoryId : String) (s : Store) : Store :=
  match s.categoriesKey with
  | none => s
  | some categories =>
      let updatedCategories := categories.filter (fun c => decide (¬ c.id = categoryId))
      let s1 := { s with categoriesKey := some updatedCategories }
      removeDeletedCategoryFromTransactions categoryId s1

/-- LocalStorageService.saveTransaction, same insert-or-update shape as
saveCategory. -/
def saveTransaction (transaction : Transaction) (newId : String) (now : Nat) (s : Store) :
    Transaction × Store :=
  let transactions := s.transactionsKey.getD []
  if transaction.id = "" then
    let transaction1 := { transaction with id := newId, created_at := now }
    (transaction1, { s with transactionsKey := some (transactions ++ [transaction1]) })
  else
    match transactions.findIdx? (fun t => decide (t.id = transaction.id)) with
    | some index =>
      (transaction, { s with transactionsKey := some (transactions.set index transaction) })
    | none => (transaction, { s with transactionsKey := some (transactions ++ [transaction]) })

/-- LocalStorageService.deleteTransaction: early return on null key, else
keep the transactions whose id differs. -/
def deleteTransaction (transactionId : String) (s : Store) : Store :=
  match s.transactionsKey with
  | none => s
  | some transactions =>
      let updatedTransactions := transactions.filter (fun t => decide (¬ t.id = transactionId))
      { s with transactionsKey := some updatedTransactions }

/-- LocalStorageService.getTransactionsByCategory: the user transactions
(fetched and sorted) filtered by t.category_id === categoryId. -/
def getTransactionsByCategory (userId : String) (categoryId : String) (s : Store) :
    List Transaction :=
  (getTransactions userId s).filter (fun t => decide (t.category_id = some categoryId))

/-- One entry of the categorySpending array built by both dashboard paths. -/
structure CategorySpend where
  id : String
  name : String
  spent : ℚ
  budget : ℚ
  percentage : ℚ
  type : TxType
deriving DecidableEq, Repr

/-- Result shape of LocalStorageService.getDashboardData. -/
structure LocalDashboard where
  totalIncome : ℚ
  totalExpenses : ℚ
  balance : ℚ
  categorySpending : List CategorySpend
  recentTransactions : List Transaction
deriving DecidableEq, Repr

/-- LocalStorageService.getDashboardData: currency-blind totals, per-category
spending via getTransactionsByCategory, balance as income minus expenses,
recentTransactions as slice(0, 5) of the sorted list. -/
def localGetDashboardData (userId : String) (s : Store) : LocalDashboard :=
  let transactions := getTransactions userId s
  let categories := getCategories userId s
  let totalIncome := sumAmounts (transactions.filter (fun t => decide (t.type = TxType.income)))
  let totalExpenses :=
    sumAmounts (transactions.filter (fun t => decide (t.type = TxType.expense)))
  let categorySpending := categories.map (fun category =>
    let spent := sumAmounts (getTransactionsByCategory userId category.id s)
    let budget := category.budget_limit.getD 0
    { id := category.id, name := category.name, spent := spent, budget := budget,
      percentage := if 0 < budget then spent / budget * 100 else 0,
      type := category.type : CategorySpend })
  { totalIncome := totalIncome, totalExpenses := totalExpenses,
    balance := totalIncome - totalExpenses,
    categorySpending := categorySpending,
    recentTransactions := transactions.take 5 }

/-- Result shape of DataService.getDashboardData on the Supabase path:
currencyTotals is the insertion-ordered record currency → totals. -/
structure DsDashboard where
  currencyTotals : List (String × ℚ × ℚ)
  balance : ℚ
  categorySpending : List CategorySpend
  recentTransactions : List Transaction
deriving DecidableEq, Repr

/-- The income += amount or expenses += amount branch shared by the two
aggregation loops of the source. -/
def applyTx (t : Transaction) (v : ℚ × ℚ) : ℚ × ℚ :=
  match t.type with
  | TxType.income => (v.1 + t.amount, v.2)
  | TxType.expense => (v.1, v.2 + t.amount)

/-- One step of the currencyTotals forEach of DataService.getDashboardData:
create the entry (0, 0) for an unseen currency (JS records keep insertion
order, so new keys go at the end), then add the amount to the income or
the expenses component of the entry of t.currency. -/
def addTx (m : List (String × ℚ × ℚ)) (t : Transaction) : List (String × ℚ × ℚ) :=
  let m1 := if m.any (fun e => decide (e.1 = t.currency)) then m else m ++ [(t.currency, 0, 0)]
  m1.map (fun e => if e.1 = t.currency then (e.1, applyTx t e.2) else e)

/-- The currencyTotals record after the forEach over all transactions. -/
def currencyTotals (transactions : List Transaction) : List (String × ℚ × ℚ) :=
  transactions.foldl addTx []

/-- DataService.getDashboardData, Supabase path (lines 200-248 of
dataService.ts), as a function of the fetched user-scoped transaction and
category lists. balancesByCurrency is the Object.entries reduce; balance
the Object.values reduce over it. -/
def dsGetDashboardData (transactions : List Transaction) (categories : List Category) :
    DsDashboard :=
  let totals := currencyTotals transactions
  let balancesByCurrency := totals.map (fun e => (e.1, e.2.1 - e.2.2))
  let categorySpending := categories.map (fun category =>
    let categoryTransactions :=
      transactions.filter (fun t => decide (t.category_id = some category.id))
    let spent := sumAmounts categoryTransactions
    let budget := category.budget_limit.getD 0
    { id := category.id, name := category.name, spent := spent, budget := budget,
      percentage := if 0 < budget then spent / budget * 100 else 0,
      type := category.type : CategorySpend })
  { currencyTotals := totals,
    balance := (balancesByCurrency.map (fun e => e.2)).sum,
    categorySpending := categorySpending,
    recentTransactions := transactions.take 5 }

/-- One monthly bucket of MonthlyTrendChart.tsx; monthKey is the (year,
month) bucket encoded as a single month index (12 * year + month), the
information content of the YYYY-MM string key built by the source. -/
structure MonthlyData where
  monthKey : Int
  income : ℚ
  expenses : ℚ
deriving DecidableEq, Repr

/-- One step of the transaction forEach of processTransactionsByMonth: when
the month key of the transaction is one of the initialized buckets, add the
amount to its income or expenses component (a map touching only matching
entries renders the monthlyMap.has guard plus set). ym gives the month
index of a created_at timestamp in the local time zone. -/
def bumpMonth (ym : Nat → Int) (m : List (Int × ℚ × ℚ)) (t : Transaction) :
    List (Int × ℚ × ℚ) :=
  m.map (fun e => if e.1 = ym t.created_at then (e.1, applyTx t e.2) else e)

/-- The trailing six month indices built by the i = 5..0 loop of
processTransactionsByMonth, oldest first: todayYM - 5, ..., todayYM. -/
def trailingMonths (todayYM : Int) : List Int :=
  (List.range 6).map (fun k => todayYM - 5 + (k : Int))

/-- Association lookup of the first entry with the given key. -/
def alookE {κ β : Type} [DecidableEq κ] (k : κ) : List (κ × β) → Option (κ × β)
  | [] => none
  | e :: m => if e.1 = k then some e else alookE k m

/-- processTransactionsByMonth of MonthlyTrendChart.tsx: initialize the six
trailing buckets to zero, fold the currency-filtered transactions through
bumpMonth, then read the buckets back in loop order (the non-null map read
of the source is rendered with a zero default, and the buckets are always
present). -/
def processTransactionsByMonth (ym : Nat → Int) (todayYM : Int) (selectedCurrency : String)
    (transactions : List Transaction) : List MonthlyData :=
  let months := trailingMonths todayYM
  let monthlyMap0 := months.map (fun k => (k, ((0 : ℚ), (0 : ℚ))))
  let filtered := transactions.filter (fun t => decide (t.currency = selectedCurrency))
  let monthlyMap := filtered.foldl (bumpMonth ym) monthlyMap0
  months.map (fun k =>
    let v := ((alookE k monthlyMap).map (fun e => e.2)).getD (0, 0)
    { monthKey := k, income := v.1, expenses := v.2 : MonthlyData })

/-- EventBus state: the events object, an insertion-ordered record from
event name to the registered callbacks in registration order. Callbacks
are identified by the reference identity JS compares with !==, modelled as
a numeric handler id. -/
structure EventBus where
  events : List (String × List Nat)
deriving DecidableEq, Repr

/-- EventBus.on (Lean reserves the name on): create the entry if absent, then push the callback. -/
def onEvent (event : String) (hid : Nat) (b : EventBus) : EventBus :=
  let b1 := if b.events.any (fun e => decide (e.1 = event)) then b
            else { events := b.events ++ [(event, [])] }
  { events := b1.events.map (fun e => if e.1 = event then (e.1, e.2 ++ [hid]) else e) }

/-- The unsubscribe closure returned by EventBus.on: filter the callbacks of
the event by reference inequality. When the entry was removed (off or
clear), reading this.events[event].filter throws; that failure is none. -/
def unsub (event : String) (hid : Nat) (b : EventBus) : Option EventBus :=
  if b.events.any (fun e => decide (e.1 = event)) then
    some { events := b.events.map (fun e =>
      if e.1 = event then (e.1, e.2.filter (fun h => decide (¬ h = hid))) else e) }
  else none

/-- Run the forEach of EventBus.emit over the callback list: θ tells which
callbacks throw on this payload. The result is the list of callbacks that
were actually invoked, in order, and whether an exception escaped; a throw
aborts the iteration (there is no try/catch in the source). -/
def runHandlers (θ : Nat → Bool) : List Nat → List Nat × Bool
  | [] => ([], false)
  | h :: rest =>
      if θ h then ([h], true)
      else
        let r := runHandlers θ rest
        (h :: r.1, r.2)

/-- EventBus.emit: nothing happens when the event has no entry, else the
callbacks run in registration order until a throw escapes. -/
def emit (event : String) (θ : Nat → Bool) (b : EventBus) : List Nat × Bool :=
  match alookE event b.events with
  | none => ([], false)
  | some e => runHandlers θ e.2

/-- EventBus.off: delete the entry of the event. -/
def off (event : String) (b : EventBus) : EventBus :=
  { events := b.events.filter (fun e => decide (¬ e.1 = event)) }

/-! Specification-side quantities, written from the words of the spec. -/

/-- Sum of the amounts of the income transactions of one currency. -/
def incomeSum (c : String) (txs : List Transaction) : ℚ :=
  sumAmounts (txs.filter (fun t => decide (t.type = TxType.income ∧ t.currency = c)))

/-- Sum of the amounts of the expense transactions of one currency. -/
def expenseSum (c : String) (txs : List Transaction) : ℚ :=
  sumAmounts (txs.filter (fun t => decide (t.type = TxType.expense ∧ t.currency = c)))

/-- Sum of the amounts of the transactions referencing a category, of any
currency and of either kind. -/
def catSum (categoryId : String) (txs : List Transaction) : ℚ :=
  sumAmounts (txs.filter (fun t => decide (t.category_id = some categoryId)))

/-- The currency codes observed among a transaction list. -/
def observedCurrencies (txs : List Transaction) : List String :=
  (txs.map Transaction.currency).dedup

/-- Monthly income of a currency in one (year, month) bucket. -/
def monthIncome (ym : Nat → Int) (c : String) (mk : Int) (txs : List Transaction) : ℚ :=
  sumAmounts (txs.filter (fun t =>
    decide (t.currency = c ∧ t.type = TxType.income ∧ ym t.created_at = mk)))

/-- Monthly expenses of a currency in one (year, month) bucket. -/
def monthExpense (ym : Nat → Int) (c : String) (mk : Int) (txs : List Transaction) : ℚ :=
  sumAmounts (txs.filter (fun t =>
    decide (t.currency = c ∧ t.type = TxType.expense ∧ ym t.created_at = mk)))

/-- Income in one (year, month) bucket of an already currency-filtered list. -/
def bucketIncome (ym : Nat → Int) (k : Int) (txs : List Transaction) : ℚ :=
  sumAmounts (txs.filter (fun t => decide (t.type = TxType.income ∧ ym t.created_at = k)))

/-- Expenses in one (year, month) bucket of an already currency-filtered list. -/
def bucketExpense (ym : Nat → Int) (k : Int) (txs : List Transaction) : ℚ :=
  sumAmounts (txs.filter (fun t => decide (t.type = TxType.expense ∧ ym t.created_at = k)))

/-- The raw stored transactions of one owner, before sorting. -/
def localUserTxs (userId : String) (s : Store) : List Transaction :=
  (s.transactionsKey.getD []).filter (fun t => decide (t.user_id = userId))

/-- Equality of two transactions in every field except id and created_at. -/
def matchesExceptIdCreated (r t : Transaction) : Prop :=
  r.description = t.description ∧ r.amount = t.amount ∧ r.type = t.type ∧
    r.currency = t.currency ∧ r.user_id = t.user_id ∧ r.category_id = t.category_id

instance (r t : Transaction) : Decidable (matchesExceptIdCreated r t) := by
  unfold matchesExceptIdCreated; infer_instance

/-! General helper lemmas. -/

theorem sumAmounts_nil : sumAmounts [] = 0 := rfl

theorem sumAmounts_cons (t : Transaction) (l : List Transaction) :
    sumAmounts (t :: l) = t.amount + sumAmounts l := by
  simp [sumAmounts]

theorem sumAmounts_append (l₁ l₂ : List Transaction) :
    sumAmounts (l₁ ++ l₂) = sumAmounts l₁ + sumAmounts l₂ := by
  simp [sumAmounts]

theorem sumAmounts_perm {l₁ l₂ : List Transaction} (h : List.Perm l₁ l₂) :
    sumAmounts l₁ = sumAmounts l₂ :=
  (h.map Transaction.amount).sum_eq

section AssocHelpers

variable {κ β : Type} [DecidableEq κ]

theorem alookE_key {k : κ} {m : List (κ × β)} {e : κ × β} (h : alookE k m = some e) :
    e.1 = k := by
  induction m with
  | nil => simp [alookE] at h
  | cons a m ih =>
      by_cases ha : a.1 = k
      · simp [alookE, ha] at h; subst h; exact ha
      · simp [alookE, ha] at h; exact ih h

theorem alookE_map_fst {k : κ} {m : List (κ × β)} {f : κ × β → κ × β}
    (hf : ∀ e, (f e).1 = e.1) : alookE k (m.map f) = (alookE k m).map f := by
  induction m with
  | nil => simp [alookE]
  | cons a m ih =>
      by_cases ha : a.1 = k
      · simp [alookE, ha, hf]
      · simp [alookE, ha, hf, ih]

theorem alookE_append (k : κ) (m₁ m₂ : List (κ × β)) :
    alookE k (m₁ ++ m₂) =
      match alookE k m₁ with
      | some e => some e
      | none => alookE k m₂ := by
  induction m₁ with
  | nil => simp [alookE]
  | cons a m ih =>
      by_cases ha : a.1 = k
      · simp [alookE, ha]
      · simp [alookE, ha, ih]

theorem alookE_eq_none_iff (k : κ) (m : List (κ × β)) :
    alookE k m = none ↔ k ∉ m.map Prod.fst := by
  induction m with
  | nil => simp [alookE]
  | cons a m ih =>
      by_cases ha : a.1 = k
      · simp [alookE, ha]
      · simp only [alookE, if_neg ha, List.map_cons, List.mem_cons, ih]
        constructor
        · intro h hc
          rcases hc with hc | hc
          · exact ha hc.symm
          · exact h hc
        · intro h hc
          exact h (Or.inr hc)

theorem any_key_iff (k : κ) (m : List (κ × β)) :
    (m.any (fun e => decide (e.1 = k)) = true) ↔ k ∈ m.map Prod.fst := by
  simp [List.any_eq_true]

theorem alookE_self_of_nodup {m : List (κ × β)} (hnd : (m.map Prod.fst).Nodup)
    {e : κ × β} (he : e ∈ m) : alookE e.1 m = some e := by
  induction m with
  | nil => simp at he
  | cons a m ih =>
      rcases List.mem_cons.mp he with rfl | hmem
      · simp [alookE]
      · have ha : ¬ a.1 = e.1 := by
          intro hk
          have : a.1 ∈ m.map Prod.fst := hk ▸ List.mem_map_of_mem Prod.fst hmem
          exact (List.nodup_cons.mp (by simpa using hnd)).1 this
        simp [alookE, ha]
        exact ih (List.nodup_cons.mp (by simpa using hnd)).2 hmem

end AssocHelpers

theorem perm_insertByDesc (t : Transaction) (l : List Transaction) :
    List.Perm (insertByDesc t l) (t :: l) := by
  induction l with
  | nil => simp [insertByDesc]
  | cons x xs ih =>
      by_cases h : x.created_at ≤ t.created_at
      · simp [insertByDesc, h]
      · simp only [insertByDesc, if_neg h]
        exact (ih.cons x).trans (List.Perm.swap t x xs)

theorem perm_sortByCreatedDesc (l : List Transaction) :
    List.Perm (sortByCreatedDesc l) l := by
  induction l with
  | nil => simp [sortByCreatedDesc]
  | cons x xs ih =>
      exact (perm_insertByDesc x (sortByCreatedDesc xs)).trans (ih.cons x)

theorem mem_insertByDesc {t y : Transaction} {l : List Transaction} :
    y ∈ insertByDesc t l ↔ y = t ∨ y ∈ l := by
  have h := (perm_insertByDesc t l).mem_iff (a := y)
  simpa using h

theorem pairwise_insertByDesc {t : Transaction} {l : List Transaction}
    (hl : l.Pairwise (fun a b => b.created_at ≤ a.created_at)) :
    (insertByDesc t l).Pairwise (fun a b => b.created_at ≤ a.created_at) := by
  induction l with
  | nil => simp [insertByDesc]
  | cons x xs ih =>
      rcases List.pairwise_cons.mp hl with ⟨hx, hxs⟩
      by_cases h : x.created_at ≤ t.created_at
      · simp only [insertByDesc, if_pos h]
        refine List.pairwise_cons.mpr ⟨?_, hl⟩
        intro y hy
        rcases List.mem_cons.mp hy with rfl | hy
        · exact h
        · exact le_trans (hx y hy) h
      · simp only [insertByDesc, if_neg h]
        refine List.pairwise_cons.mpr ⟨?_, ih hxs⟩
        intro y hy
        rcases mem_insertByDesc.mp hy with rfl | hy
        · exact le_of_not_le h
        · exact hx y hy

theorem pairwise_sortByCreatedDesc (l : List Transaction) :
    (sortByCreatedDesc l).Pairwise (fun a b => b.created_at ≤ a.created_at) := by
  induction l with
  | nil => simp [sortByCreatedDesc]
  | cons x xs ih => exact pairwise_insertByDesc ih

theorem sum_map_add {α : Type} (l : List α) (f g : α → ℚ) :
    (l.map (fun a => f a + g a)).sum = (l.map f).sum + (l.map g).sum := by
  induction l with
  | nil => simp
  | cons x xs ih =>
      simp only [List.map_cons, List.sum_cons, ih]
      ring

theorem sum_map_sub {α : Type} (l : List α) (f g : α → ℚ) :
    (l.map (fun a => f a - g a)).sum = (l.map f).sum - (l.map g).sum := by
  induction l with
  | nil => simp
  | cons x xs ih =>
      simp only [List.map_cons, List.sum_cons, ih]
      ring

theorem sum_ite_of_not_mem {x : String} {keys : List String} (h : x ∉ keys) (a : ℚ) :
    (keys.map (fun c => if x = c then a else 0)).sum = 0 := by
  induction keys with
  | nil => simp
  | cons k ks ih =>
      have hk : ¬ x = k := fun hxk => h (hxk ▸ List.mem_cons_self k ks)
      have hks : x ∉ ks := fun hxk => h (List.mem_cons_of_mem k hxk)
      simp [hk, ih hks]

theorem sum_ite_of_mem_nodup {x : String} {keys : List String} (hnd : keys.Nodup)
    (hx : x ∈ keys) (a : ℚ) :
    (keys.map (fun c => if x = c then a else 0)).sum = a := by
  induction keys with
  | nil => simp at hx
  | cons k ks ih =>
      rcases List.nodup_cons.mp hnd with ⟨hk, hks⟩
      rcases List.mem_cons.mp hx with rfl | hxs
      · simp [sum_ite_of_not_mem hk a]
      · have hxk : ¬ x = k := fun hxk => hk (hxk ▸ hxs)
        simp [hxk, ih hks hxs]

theorem sum_partition (keys : List String) (l : List Transaction)
    (hnd : keys.Nodup) (hcov : ∀ t ∈ l, t.currency ∈ keys) :
    (keys.map (fun c => sumAmounts (l.filter (fun t => decide (t.currency = c))))).sum
      = sumAmounts l := by
  induction l with
  | nil => simp [sumAmounts]
  | cons t l ih =>
      have hcov1 : ∀ u ∈ l, u.currency ∈ keys := fun u hu => hcov u (List.mem_cons_of_mem t hu)
      have step : ∀ c : String,
          sumAmounts ((t :: l).filter (fun u => decide (u.currency = c)))
            = (if t.currency = c then t.amount else 0)
              + sumAmounts (l.filter (fun u => decide (u.currency = c))) := by
        intro c
        by_cases h : t.currency = c
        · simp [List.filter_cons, h, sumAmounts_cons]
        · simp [List.filter_cons, h]
      have hmap : keys.map (fun c => sumAmounts ((t :: l).filter (fun u => decide (u.currency = c))))
          = keys.map (fun c => (if t.currency = c then t.amount else 0)
              + sumAmounts (l.filter (fun u => decide (u.currency = c)))) :=
        List.map_congr_left (fun c _ => step c)
      rw [hmap, sum_map_add, sum_ite_of_mem_nodup hnd (hcov t (List.mem_cons_self t l)) t.amount,
        ih hcov1, sumAmounts_cons]

theorem incomeSum_cons (c : String) (t : Transaction) (txs : List Transaction) :
    incomeSum c (t :: txs) =
      (if t.type = TxType.income ∧ t.currency = c then t.amount else 0) + incomeSum c txs := by
  by_cases h : t.type = TxType.income ∧ t.currency = c
  · simp [incomeSum, List.filter_cons, h, sumAmounts_cons]
  · simp [incomeSum, List.filter_cons, h]

theorem expenseSum_cons (c : String) (t : Transaction) (txs : List Transaction) :
    expenseSum c (t :: txs) =
      (if t.type = TxType.expense ∧ t.currency = c then t.amount else 0) + expenseSum c txs := by
  by_cases h : t.type = TxType.expense ∧ t.currency = c
  · simp [expenseSum, List.filter_cons, h, sumAmounts_cons]
  · simp [expenseSum, List.filter_cons, h]

theorem map_fst_update {κ β : Type} [DecidableEq κ] (m : List (κ × β)) (f : κ × β → κ × β)
    (hf : ∀ e, (f e).1 = e.1) : (m.map f).map Prod.fst = m.map Prod.fst := by
  induction m with
  | nil => rfl
  | cons a m ih => simp [hf, ih]

theorem alookE_addTx (m : List (String × ℚ × ℚ)) (t : Transaction) (c : String) :
    alookE c (addTx m t) =
      if c = t.currency
      then some (c, applyTx t (((alookE c m).map (fun e => e.2)).getD (0, 0)))
      else alookE c m := by
  have hf : ∀ e : String × ℚ × ℚ,
      ((fun e : String × ℚ × ℚ =>
        if e.1 = t.currency then (e.1, applyTx t e.2) else e) e).1 = e.1 := by
    intro e; by_cases h : e.1 = t.currency <;> simp [h]
  simp only [addTx]
  by_cases hany : (m.any (fun e => decide (e.1 = t.currency))) = true
  · rw [if_pos hany, alookE_map_fst hf]
    by_cases hc : c = t.currency
    · rw [if_pos hc]
      cases halook : alookE c m with
      | none =>
          rw [alookE_eq_none_iff, hc] at halook
          exact absurd ((any_key_iff t.currency m).mp hany) halook
      | some e =>
          have hk : e.1 = c := alookE_key halook
          have he : e.1 = t.currency := hk.trans hc
          simp [he, hk, hc.symm]
    · rw [if_neg hc]
      cases halook : alookE c m with
      | none => simp
      | some e =>
          have hk : e.1 = c := alookE_key halook
          have hne : ¬ e.1 = t.currency := by rw [hk]; exact hc
          simp [hne]
  · rw [if_neg hany, alookE_map_fst hf, alookE_append]
    have hnot : t.currency ∉ m.map Prod.fst := by
      intro hmem
      exact hany ((any_key_iff t.currency m).mpr hmem)
    by_cases hc : c = t.currency
    · rw [if_pos hc]
      have hnone : alookE c m = none := by
        rw [alookE_eq_none_iff, hc]; exact hnot
      rw [hnone]
      simp [alookE, hc]
    · rw [if_neg hc]
      cases halook : alookE c m with
      | none =>
          simp only [alookE]
          have hne : ¬ (t.currency, (0 : ℚ), (0 : ℚ)).1 = c := fun h => hc h.symm
          simp [hne]
      | some e =>
          have hk : e.1 = c := alookE_key halook
          have hne : ¬ e.1 = t.currency := by rw [hk]; exact hc
          simp [hne]

theorem alookE_foldl_addTx (txs : List Transaction) :
    ∀ (m : List (String × ℚ × ℚ)) (c : String),
      alookE c (txs.foldl addTx m) =
        match alookE c m with
        | some e => some (c, e.2.1 + incomeSum c txs, e.2.2 + expenseSum c txs)
        | none =>
            if c ∈ txs.map Transaction.currency
            then some (c, incomeSum c txs, expenseSum c txs)
            else none := by
  induction txs with
  | nil =>
      intro m c
      cases halook : alookE c m with
      | none => simp [halook]
      | some e =>
          have hk : e.1 = c := alookE_key halook
          obtain ⟨k, i, x⟩ := e
          simp only [List.foldl_nil, halook]
          simp only [incomeSum, expenseSum, List.filter_nil, sumAmounts_nil, add_zero]
          simp at hk
          simp [hk]
  | cons t txs ih =>
      intro m c
      rw [List.foldl_cons, ih (addTx m t) c, alookE_addTx]
      by_cases hc : c = t.currency
      · rw [if_pos hc]
        have hcur : t.currency = c := hc.symm
        cases halook : alookE c m with
        | some e =>
            cases hty : t.type with
            | income =>
                have h1 : t.type = TxType.income ∧ t.currency = c := ⟨hty, hcur⟩
                have h2 : ¬ (t.type = TxType.expense ∧ t.currency = c) := by
                  intro h; rw [hty] at h; exact TxType.noConfusion h.1
                simp [applyTx, hty, incomeSum_cons, expenseSum_cons, h1, h2, add_assoc]
            | expense =>
                have h1 : t.type = TxType.expense ∧ t.currency = c := ⟨hty, hcur⟩
                have h2 : ¬ (t.type = TxType.income ∧ t.currency = c) := by
                  intro h; rw [hty] at h; exact TxType.noConfusion h.1
                simp [applyTx, hty, incomeSum_cons, expenseSum_cons, h1, h2, add_assoc]
        | none =>
            cases hty : t.type with
            | income =>
                have h1 : t.type = TxType.income ∧ t.currency = c := ⟨hty, hcur⟩
                have h2 : ¬ (t.type = TxType.expense ∧ t.currency = c) := by
                  intro h; rw [hty] at h; exact TxType.noConfusion h.1
                simp [applyTx, hty, incomeSum_cons, expenseSum_cons, h1, h2, hcur]
            | expense =>
                have h1 : t.type = TxType.expense ∧ t.currency = c := ⟨hty, hcur⟩
                have h2 : ¬ (t.type = TxType.income ∧ t.currency = c) := by
                  intro h; rw [hty] at h; exact TxType.noConfusion h.1
                simp [applyTx, hty, incomeSum_cons, expenseSum_cons, h1, h2, hcur]
      · rw [if_neg hc]
        have hcur : ¬ t.currency = c := fun h => hc h.symm
        have h1 : ¬ (t.type = TxType.income ∧ t.currency = c) := fun h => hcur h.2
        have h2 : ¬ (t.type = TxType.expense ∧ t.currency = c) := fun h => hcur h.2
        cases halook : alookE c m with
        | some e => simp [incomeSum_cons, expenseSum_cons, h1, h2]
        | none => simp [incomeSum_cons, expenseSum_cons, h1, h2, hc]

theorem keys_addTx (m : List (String × ℚ × ℚ)) (t : Transaction) :
    (addTx m t).map Prod.fst =
      if t.currency ∈ m.map Prod.fst then m.map Prod.fst
      else m.map Prod.fst ++ [t.currency] := by
  have hf : ∀ e : String × ℚ × ℚ,
      ((fun e : String × ℚ × ℚ =>
        if e.1 = t.currency then (e.1, applyTx t e.2) else e) e).1 = e.1 := by
    intro e; by_cases h : e.1 = t.currency <;> simp [h]
  simp only [addTx]
  by_cases hany : (m.any (fun e => decide (e.1 = t.currency))) = true
  · rw [if_pos hany, map_fst_update _ _ hf, if_pos ((any_key_iff t.currency m).mp hany)]
  · have hnot : t.currency ∉ m.map Prod.fst := by
      intro hmem
      exact hany ((any_key_iff t.currency m).mpr hmem)
    rw [if_neg hany, map_fst_update _ _ hf, if_neg hnot]
    simp

theorem keys_foldl_addTx (txs : List Transaction) :
    ∀ m : List (String × ℚ × ℚ), (m.map Prod.fst).Nodup →
      ((txs.foldl addTx m).map Prod.fst).Nodup ∧
      (∀ c, c ∈ (txs.foldl addTx m).map Prod.fst ↔
            c ∈ m.map Prod.fst ∨ c ∈ txs.map Transaction.currency) := by
  induction txs with
  | nil =>
      intro m hnd
      exact ⟨hnd, fun c => by simp⟩
  | cons t txs ih =>
      intro m hnd
      have hstep : ((addTx m t).map Prod.fst).Nodup := by
        rw [keys_addTx]
        by_cases h : t.currency ∈ m.map Prod.fst
        · rw [if_pos h]; exact hnd
        · rw [if_neg h]
          simp [List.nodup_append, hnd, h]
      have hmem : ∀ c, c ∈ (addTx m t).map Prod.fst ↔
          c ∈ m.map Prod.fst ∨ c = t.currency := by
        intro c
        rw [keys_addTx]
        by_cases h : t.currency ∈ m.map Prod.fst
        · rw [if_pos h]
          constructor
          · exact Or.inl
          · rintro (hc | rfl)
            · exact hc
            · exact h
        · rw [if_neg h]
          simp
      rcases ih (addTx m t) hstep with ⟨ihnd, ihmem⟩
      refine ⟨by simpa using ihnd, fun c => ?_⟩
      rw [List.foldl_cons, ihmem c, hmem c]
      simp [or_assoc]

theorem alookE_currencyTotals (txs : List Transaction) (c : String) :
    alookE c (currencyTotals txs) =
      if c ∈ txs.map Transaction.currency
      then some (c, incomeSum c txs, expenseSum c txs)
      else none := by
  have h := alookE_foldl_addTx txs [] c
  simpa [currencyTotals, alookE] using h

theorem keys_currencyTotals_nodup (txs : List Transaction) :
    ((currencyTotals txs).map Prod.fst).Nodup :=
  (keys_foldl_addTx txs [] (by simp)).1

theorem mem_keys_currencyTotals (txs : List Transaction) (c : String) :
    c ∈ (currencyTotals txs).map Prod.fst ↔ c ∈ txs.map Transaction.currency := by
  have h := (keys_foldl_addTx txs [] (by simp)).2 c
  simpa [currencyTotals] using h

theorem alookE_bumpMonth (ym : Nat → Int) (m : List (Int × ℚ × ℚ)) (t : Transaction) (k : Int) :
    alookE k (bumpMonth ym m t) =
      if k = ym t.created_at
      then (alookE k m).map (fun e => (e.1, applyTx t e.2))
      else alookE k m := by
  have hf : ∀ e : Int × ℚ × ℚ,
      ((fun e : Int × ℚ × ℚ =>
        if e.1 = ym t.created_at then (e.1, applyTx t e.2) else e) e).1 = e.1 := by
    intro e; by_cases h : e.1 = ym t.created_at <;> simp [h]
  simp only [bumpMonth]
  rw [alookE_map_fst hf]
  by_cases hk : k = ym t.created_at
  · rw [if_pos hk]
    cases halook : alookE k m with
    | none => simp
    | some e =>
        have he : e.1 = k := alookE_key halook
        have hcond : e.1 = ym t.created_at := by rw [he]; exact hk
        simp [hcond]
  · rw [if_neg hk]
    cases halook : alookE k m with
    | none => simp
    | some e =>
        have he : e.1 = k := alookE_key halook
        have hne : ¬ e.1 = ym t.created_at := by rw [he]; exact hk
        simp [hne]

theorem bucketIncome_cons (ym : Nat → Int) (k : Int) (t : Transaction)
    (txs : List Transaction) :
    bucketIncome ym k (t :: txs) =
      (if t.type = TxType.income ∧ ym t.created_at = k then t.amount else 0)
        + bucketIncome ym k txs := by
  by_cases h : t.type = TxType.income ∧ ym t.created_at = k
  · simp [bucketIncome, List.filter_cons, h, sumAmounts_cons]
  · simp [bucketIncome, List.filter_cons, h]

theorem bucketExpense_cons (ym : Nat → Int) (k : Int) (t : Transaction)
    (txs : List Transaction) :
    bucketExpense ym k (t :: txs) =
      (if t.type = TxType.expense ∧ ym t.created_at = k then t.amount else 0)
        + bucketExpense ym k txs := by
  by_cases h : t.type = TxType.expense ∧ ym t.created_at = k
  · simp [bucketExpense, List.filter_cons, h, sumAmounts_cons]
  · simp [bucketExpense, List.filter_cons, h]

theorem alookE_foldl_bumpMonth (ym : Nat → Int) (txs : List Transaction) :
    ∀ (m : List (Int × ℚ × ℚ)) (k : Int),
      alookE k (txs.foldl (bumpMonth ym) m) =
        (alookE k m).map (fun e =>
          (e.1, e.2.1 + bucketIncome ym k txs, e.2.2 + bucketExpense ym k txs)) := by
  induction txs with
  | nil =>
      intro m k
      cases halook : alookE k m with
      | none => simp [halook]
      | some e => simp [halook, bucketIncome, bucketExpense, sumAmounts]
  | cons t txs ih =>
      intro m k
      rw [List.foldl_cons, ih (bumpMonth ym m t) k, alookE_bumpMonth]
      by_cases hk : k = ym t.created_at
      · rw [if_pos hk]
        cases halook : alookE k m with
        | none => simp
        | some e =>
            cases hty : t.type with
            | income =>
                have h1 : t.type = TxType.income ∧ ym t.created_at = k := ⟨hty, hk.symm⟩
                have h2 : ¬ (t.type = TxType.expense ∧ ym t.created_at = k) := by
                  intro h; rw [hty] at h; exact TxType.noConfusion h.1
                simp [applyTx, hty, bucketIncome_cons, bucketExpense_cons, h1, h2, add_assoc]
            | expense =>
                have h1 : t.type = TxType.expense ∧ ym t.created_at = k := ⟨hty, hk.symm⟩
                have h2 : ¬ (t.type = TxType.income ∧ ym t.created_at = k) := by
                  intro h; rw [hty] at h; exact TxType.noConfusion h.1
                simp [applyTx, hty, bucketIncome_cons, bucketExpense_cons, h1, h2, add_assoc]
      · rw [if_neg hk]
        have hkk : ¬ ym t.created_at = k := fun h => hk h.symm
        have h1 : ¬ (t.type = TxType.income ∧ ym t.created_at = k) := fun h => hkk h.2
        have h2 : ¬ (t.type = TxType.expense ∧ ym t.created_at = k) := fun h => hkk h.2
        cases halook : alookE k m with
        | none => simp [bucketIncome_cons, bucketExpense_cons, h1, h2]
        | some e => simp [bucketIncome_cons, bucketExpense_cons, h1, h2]

theorem alookE_zeroInit {κ : Type} [DecidableEq κ] (keys : List κ) (k : κ) :
    alookE k (keys.map (fun c => (c, ((0 : ℚ), (0 : ℚ))))) =
      if k ∈ keys then some (k, 0, 0) else none := by
  induction keys with
  | nil => simp [alookE]
  | cons a ks ih =>
      by_cases h : a = k
      · simp [alookE, h, -Prod.mk_zero_zero]
      · have hka : ¬ k = a := fun hh => h hh.symm
        simp [alookE, h, ih, hka, -Prod.mk_zero_zero]

theorem filter_currency_bucketIncome (ym : Nat → Int) (sel : String) (k : Int)
    (txs : List Transaction) :
    bucketIncome ym k (txs.filter (fun t => decide (t.currency = sel)))
      = monthIncome ym sel k txs := by
  have hpt : ∀ t : Transaction,
      (decide (t.type = TxType.income ∧ ym t.created_at = k) && decide (t.currency = sel))
        = decide (t.currency = sel ∧ t.type = TxType.income ∧ ym t.created_at = k) := by
    intro t
    by_cases h1 : t.currency = sel <;> by_cases h2 : t.type = TxType.income <;>
      by_cases h3 : ym t.created_at = k <;> simp [h1, h2, h3]
  rw [bucketIncome, monthIncome, List.filter_filter]
  exact congrArg sumAmounts (List.filter_congr (fun t _ => hpt t))

theorem filter_currency_bucketExpense (ym : Nat → Int) (sel : String) (k : Int)
    (txs : List Transaction) :
    bucketExpense ym k (txs.filter (fun t => decide (t.currency = sel)))
      = monthExpense ym sel k txs := by
  have hpt : ∀ t : Transaction,
      (decide (t.type = TxType.expense ∧ ym t.created_at = k) && decide (t.currency = sel))
        = decide (t.currency = sel ∧ t.type = TxType.expense ∧ ym t.created_at = k) := by
    intro t
    by_cases h1 : t.currency = sel <;> by_cases h2 : t.type = TxType.expense <;>
      by_cases h3 : ym t.created_at = k <;> simp [h1, h2, h3]
  rw [bucketExpense, monthExpense, List.filter_filter]
  exact congrArg sumAmounts (List.filter_congr (fun t _ => hpt t))

theorem getTransactions_eq_sort (u : String) (s : Store) :
    getTransactions u s = sortByCreatedDesc (localUserTxs u s) := by
  unfold getTransactions localUserTxs
  cases s.transactionsKey with
  | none => simp [sortByCreatedDesc]
  | some l => simp

theorem perm_getTransactions (u : String) (s : Store) :
    List.Perm (getTransactions u s) (localUserTxs u s) := by
  rw [getTransactions_eq_sort]
  exact perm_sortByCreatedDesc (localUserTxs u s)

theorem income_partition (keys : List String) (l : List Transaction) (hnd : keys.Nodup)
    (hcov : ∀ t ∈ l, t.currency ∈ keys) :
    (keys.map (fun c => incomeSum c l)).sum
      = sumAmounts (l.filter (fun t => decide (t.type = TxType.income))) := by
  have hcov1 : ∀ t ∈ l.filter (fun t => decide (t.type = TxType.income)), t.currency ∈ keys :=
    fun t ht => hcov t (List.mem_of_mem_filter ht)
  have hpart := sum_partition keys (l.filter (fun t => decide (t.type = TxType.income))) hnd hcov1
  rw [← hpart]
  refine congrArg List.sum (List.map_congr_left ?_)
  intro c hc
  rw [incomeSum, List.filter_filter]
  refine congrArg sumAmounts (List.filter_congr ?_)
  intro t ht
  by_cases h1 : t.type = TxType.income <;> by_cases h2 : t.currency = c <;> simp [h1, h2]

theorem expense_partition (keys : List String) (l : List Transaction) (hnd : keys.Nodup)
    (hcov : ∀ t ∈ l, t.currency ∈ keys) :
    (keys.map (fun c => expenseSum c l)).sum
      = sumAmounts (l.filter (fun t => decide (t.type = TxType.expense))) := by
  have hcov1 : ∀ t ∈ l.filter (fun t => decide (t.type = TxType.expense)), t.currency ∈ keys :=
    fun t ht => hcov t (List.mem_of_mem_filter ht)
  have hpart := sum_partition keys (l.filter (fun t => decide (t.type = TxType.expense))) hnd hcov1
  rw [← hpart]
  refine congrArg List.sum (List.map_congr_left ?_)
  intro c hc
  rw [expenseSum, List.filter_filter]
  refine congrArg sumAmounts (List.filter_congr ?_)
  intro t ht
  by_cases h1 : t.type = TxType.expense <;> by_cases h2 : t.currency = c <;> simp [h1, h2]

theorem net_partition (keys : List String) (l : List Transaction) (hnd : keys.Nodup)
    (hcov : ∀ t ∈ l, t.currency ∈ keys) :
    (keys.map (fun c => incomeSum c l - expenseSum c l)).sum
      = sumAmounts (l.filter (fun t => decide (t.type = TxType.income)))
        - sumAmounts (l.filter (fun t => decide (t.type = TxType.expense))) := by
  rw [sum_map_sub, income_partition keys l hnd hcov, expense_partition keys l hnd hcov]

theorem observedCurrencies_nodup (l : List Transaction) : (observedCurrencies l).Nodup :=
  List.nodup_dedup _

theorem mem_observedCurrencies {t : Transaction} {l : List Transaction} (ht : t ∈ l) :
    t.currency ∈ observedCurrencies l :=
  List.mem_dedup.mpr (List.mem_map_of_mem Transaction.currency ht)

theorem dsBalance_eq (txs : List Transaction) (cats : List Category) :
    (dsGetDashboardData txs cats).balance
      = ((observedCurrencies txs).map (fun c => incomeSum c txs - expenseSum c txs)).sum := by
  have hnd := keys_currencyTotals_nodup txs
  have lhs1 : (dsGetDashboardData txs cats).balance
      = ((currencyTotals txs).map (fun e => e.2.1 - e.2.2)).sum := by
    simp only [dsGetDashboardData, List.map_map]
    exact congrArg List.sum (List.map_congr_left (fun e _ => rfl))
  have hentries : (currencyTotals txs).map (fun e => e.2.1 - e.2.2)
      = ((currencyTotals txs).map Prod.fst).map (fun c => incomeSum c txs - expenseSum c txs) := by
    rw [List.map_map]
    refine List.map_congr_left ?_
    intro e he
    have hself := alookE_self_of_nodup hnd he
    have hobs : e.1 ∈ txs.map Transaction.currency :=
      (mem_keys_currencyTotals txs e.1).mp (List.mem_map_of_mem Prod.fst he)
    have hval := alookE_currencyTotals txs e.1
    rw [if_pos hobs] at hval
    rw [hself] at hval
    have he2 : e.2 = (incomeSum e.1 txs, expenseSum e.1 txs) := by
      have := congrArg (fun o => (Option.map Prod.snd o).getD (0, 0)) hval
      simpa using this
    simp [Function.comp, he2]
  have hcov1 : ∀ t ∈ txs, t.currency ∈ (currencyTotals txs).map Prod.fst := by
    intro t ht
    exact (mem_keys_currencyTotals txs t.currency).mpr (List.mem_map_of_mem _ ht)
  have hcov2 : ∀ t ∈ txs, t.currency ∈ observedCurrencies txs :=
    fun t ht => mem_observedCurrencies ht
  rw [lhs1, hentries, net_partition _ txs hnd hcov1,
    ← net_partition _ txs (observedCurrencies_nodup txs) hcov2]

/-- Claim C1 (amended): per-currency bucketing holds on the Supabase path of
DataService.getDashboardData: currencyTotals has pairwise distinct currency
keys, and it maps a currency to some entry exactly when that currency is
observed among the transactions, in which case the entry is the pair of the
income sum and the expense sum of the transactions of that currency only.
The local-fallback path produces no per-currency totals at all: its
totalIncome and totalExpenses add the amounts of all of the income and all
of the expense transactions of the owner regardless of currency, that is,
they equal the sums of the per-currency sums over every observed currency. -/
theorem C1_currency_bucketing (txs : List Transaction) (cats : List Category)
    (u : String) (s : Store) (c : String) :
    alookE c (dsGetDashboardData txs cats).currencyTotals =
      (if c ∈ txs.map Transaction.currency
       then some (c, incomeSum c txs, expenseSum c txs) else none)
    ∧ (((dsGetDashboardData txs cats).currencyTotals).map Prod.fst).Nodup
    ∧ (localGetDashboardData u s).totalIncome =
        ((observedCurrencies (localUserTxs u s)).map
          (fun c0 => incomeSum c0 (localUserTxs u s))).sum
    ∧ (localGetDashboardData u s).totalExpenses =
        ((observedCurrencies (localUserTxs u s)).map
          (fun c0 => expenseSum c0 (localUserTxs u s))).sum := by
  refine ⟨alookE_currencyTotals txs c, keys_currencyTotals_nodup txs, ?_, ?_⟩
  · have hperm := (perm_getTransactions u s).filter
      (fun t => decide (t.type = TxType.income))
    have h1 : (localGetDashboardData u s).totalIncome
        = sumAmounts ((localUserTxs u s).filter (fun t => decide (t.type = TxType.income))) := by
      simp only [localGetDashboardData]
      exact sumAmounts_perm hperm
    rw [h1, income_partition _ _ (observedCurrencies_nodup (localUserTxs u s))
      (fun t ht => mem_observedCurrencies ht)]
  · have hperm := (perm_getTransactions u s).filter
      (fun t => decide (t.type = TxType.expense))
    have h1 : (localGetDashboardData u s).totalExpenses
        = sumAmounts ((localUserTxs u s).filter (fun t => decide (t.type = TxType.expense))) := by
      simp only [localGetDashboardData]
      exact sumAmounts_perm hperm
    rw [h1, expense_partition _ _ (observedCurrencies_nodup (localUserTxs u s))
      (fun t ht => mem_observedCurrencies ht)]

/-- Claim C1 counterexample: in the local-fallback path the income total of a
store holding a USD income of 100 and a EUR income of 50 is the mixed-up
scalar 150, which is the per-currency income sum of no observed currency, so
the fallback path does add amounts of two different currencies into one sum
with no per-currency bucketing. -/
theorem C1_cx :
    (localGetDashboardData "u" { categoriesKey := none, transactionsKey := some [
      { id := "t1", description := "salary", amount := 100, type := TxType.income,
        currency := "USD", created_at := 2, user_id := "u", category_id := none },
      { id := "t2", description := "bonus", amount := 50, type := TxType.income,
        currency := "EUR", created_at := 1, user_id := "u", category_id := none }] }).totalIncome
        = 150
    ∧ incomeSum "USD" (localUserTxs "u" { categoriesKey := none, transactionsKey := some [
      { id := "t1", description := "salary", amount := 100, type := TxType.income,
        currency := "USD", created_at := 2, user_id := "u", category_id := none },
      { id := "t2", description := "bonus", amount := 50, type := TxType.income,
        currency := "EUR", created_at := 1, user_id := "u", category_id := none }] }) = 100
    ∧ incomeSum "EUR" (localUserTxs "u" { categoriesKey := none, transactionsKey := some [
      { id := "t1", description := "salary", amount := 100, type := TxType.income,
        currency := "USD", created_at := 2, user_id := "u", category_id := none },
      { id := "t2", description := "bonus", amount := 50, type := TxType.income,
        currency := "EUR", created_at := 1, user_id := "u", category_id := none }] }) = 50
    ∧ (150 : ℚ) ≠ 100 ∧ (150 : ℚ) ≠ 50 := by
  refine ⟨?_, ?_, ?_, by norm_num, by norm_num⟩ <;>
    · simp +decide [localGetDashboardData, getTransactions, sortByCreatedDesc, insertByDesc,
        localUserTxs, incomeSum, sumAmounts, getCategories, List.filter_cons]
      try norm_num

/-- Claim C2: in both dashboard paths every category of the input yields a
categorySpending entry whose spent is the sum of the amounts of all of the
transactions of the input whose category_id equals the category id, of any
currency and of either kind; whose budget is budget_limit with 0 for
absent; and whose percentage is spent / budget * 100 when the budget is
positive and exactly 0 otherwise, so the division is never performed when
the budget is 0 or absent and no division-by-zero value can appear. -/
theorem C2_categorySpending (txs : List Transaction) (cats : List Category)
    (u : String) (s : Store) :
    (dsGetDashboardData txs cats).categorySpending = cats.map (fun c =>
      { id := c.id, name := c.name, spent := catSum c.id txs,
        budget := c.budget_limit.getD 0,
        percentage := if (0 : ℚ) < c.budget_limit.getD 0
          then catSum c.id txs / c.budget_limit.getD 0 * 100 else 0,
        type := c.type : CategorySpend })
    ∧ (localGetDashboardData u s).categorySpending = (getCategories u s).map (fun c =>
      { id := c.id, name := c.name, spent := catSum c.id (localUserTxs u s),
        budget := c.budget_limit.getD 0,
        percentage := if (0 : ℚ) < c.budget_limit.getD 0
          then catSum c.id (localUserTxs u s) / c.budget_limit.getD 0 * 100 else 0,
        type := c.type : CategorySpend }) := by
  constructor
  · rfl
  · simp only [localGetDashboardData]
    refine List.map_congr_left ?_
    intro c hc
    have hspent : sumAmounts (getTransactionsByCategory u c.id s)
        = catSum c.id (localUserTxs u s) := by
      have hperm := (perm_getTransactions u s).filter
        (fun t => decide (t.category_id = some c.id))
      exact sumAmounts_perm hperm
    rw [hspent]

/-- Claim C3 (amended): in both dashboard paths the balance equals the sum
over all observed currencies of (income total minus expense total) of that
currency, added together as a single scalar without conversion; for empty
transaction and category inputs the balance is 0 and the derived lists are
empty. -/
theorem C3_balance (txs : List Transaction) (cats : List Category) (u : String) (s : Store) :
    (dsGetDashboardData txs cats).balance
      = ((observedCurrencies txs).map (fun c => incomeSum c txs - expenseSum c txs)).sum
    ∧ (localGetDashboardData u s).balance
      = ((observedCurrencies (localUserTxs u s)).map
          (fun c => incomeSum c (localUserTxs u s) - expenseSum c (localUserTxs u s))).sum
    ∧ dsGetDashboardData [] [] =
        { currencyTotals := [], balance := 0, categorySpending := [],
          recentTransactions := [] }
    ∧ localGetDashboardData u { categoriesKey := none, transactionsKey := none } =
        { totalIncome := 0, totalExpenses := 0, balance := 0, categorySpending := [],
          recentTransactions := [] } := by
  refine ⟨dsBalance_eq txs cats, ?_, ?_, ?_⟩
  · have hperm1 := (perm_getTransactions u s).filter (fun t => decide (t.type = TxType.income))
    have hperm2 := (perm_getTransactions u s).filter (fun t => decide (t.type = TxType.expense))
    have h1 : (localGetDashboardData u s).balance
        = sumAmounts ((localUserTxs u s).filter (fun t => decide (t.type = TxType.income)))
          - sumAmounts ((localUserTxs u s).filter (fun t => decide (t.type = TxType.expense))) := by
      simp only [localGetDashboardData]
      rw [sumAmounts_perm hperm1, sumAmounts_perm hperm2]
    rw [h1, ← net_partition _ _ (observedCurrencies_nodup (localUserTxs u s))
      (fun t ht => mem_observedCurrencies ht)]
  · rfl
  · simp +decide [localGetDashboardData, getTransactions, getCategories, localUserTxs,
      sortByCreatedDesc, sumAmounts]

/-- Claim C3 counterexample: for a one-category input with an empty
transaction list the balance is 0 but categorySpending is not empty, so the
claim that all derived lists are empty for the empty transaction list fails
(it needs the category list empty too). -/
theorem C3_cx :
    (dsGetDashboardData []
      [{ id := "c1", name := "Food", type := TxType.expense,
         budget_limit := some 400, user_id := "u", created_at := 0 }]).balance = 0
    ∧ (dsGetDashboardData []
      [{ id := "c1", name := "Food", type := TxType.expense,
         budget_limit := some 400, user_id := "u", created_at := 0 }]).categorySpending ≠ [] := by
  constructor
  · rfl
  · simp [dsGetDashboardData]

/-- Claim C4: processTransactionsByMonth returns exactly six entries, one per
trailing calendar month ending at the current month, oldest first in
strictly increasing chronological order; the entry of index k carries the
month index todayYM - 5 + k, and its income and expenses are the sums of
the amounts of the transactions of the selected currency of the matching
kind whose created_at falls in that (year, month) bucket, so months with no
matching transactions appear with zeros and the length is six even for an
empty input. -/
theorem C4_monthlyTrend (ym : Nat → Int) (todayYM : Int) (sel : String)
    (txs : List Transaction) :
    processTransactionsByMonth ym todayYM sel txs
      = (List.range 6).map (fun (n : Nat) =>
          { monthKey := todayYM - 5 + (n : Int),
            income := monthIncome ym sel (todayYM - 5 + (n : Int)) txs,
            expenses := monthExpense ym sel (todayYM - 5 + (n : Int)) txs : MonthlyData })
    ∧ (processTransactionsByMonth ym todayYM sel txs).length = 6
    ∧ List.Pairwise (fun a b => a < b)
        ((processTransactionsByMonth ym todayYM sel txs).map MonthlyData.monthKey) := by
  have hmain : processTransactionsByMonth ym todayYM sel txs
      = (trailingMonths todayYM).map (fun k =>
          { monthKey := k,
            income := monthIncome ym sel k txs,
            expenses := monthExpense ym sel k txs : MonthlyData }) := by
    simp only [processTransactionsByMonth]
    refine List.map_congr_left ?_
    intro k hk
    rw [alookE_foldl_bumpMonth, alookE_zeroInit, if_pos hk]
    simp [filter_currency_bucketIncome, filter_currency_bucketExpense]
  have hrange : processTransactionsByMonth ym todayYM sel txs
      = (List.range 6).map (fun (n : Nat) =>
          { monthKey := todayYM - 5 + (n : Int),
            income := monthIncome ym sel (todayYM - 5 + (n : Int)) txs,
            expenses := monthExpense ym sel (todayYM - 5 + (n : Int)) txs : MonthlyData }) := by
    rw [hmain, trailingMonths, List.map_map]
    exact List.map_congr_left (fun n _ => rfl)
  refine ⟨hrange, by rw [hrange]; simp, ?_⟩
  rw [hrange, List.map_map, List.pairwise_map]
  refine List.Pairwise.imp ?_ (List.pairwise_lt_range 6)
  intro a b hab
  show todayYM - 5 + (a : Int) < todayYM - 5 + (b : Int)
  omega

theorem clearCat_not_ref (cid : String) (t : Transaction) :
    ¬ (clearCat cid t).category_id = some cid := by
  unfold clearCat
  by_cases h : t.category_id = some cid
  · simp [h]
  · simp [h]

theorem clearCat_of_ref (cid : String) (t : Transaction) (h : t.category_id = some cid) :
    clearCat cid t = { t with category_id := none } := by
  simp [clearCat, h]

theorem clearCat_of_not_ref (cid : String) (t : Transaction) (h : ¬ t.category_id = some cid) :
    clearCat cid t = t := by
  simp [clearCat, h]

theorem clearCat_frame (cid : String) (t : Transaction) :
    (clearCat cid t).id = t.id ∧ (clearCat cid t).description = t.description
    ∧ (clearCat cid t).amount = t.amount ∧ (clearCat cid t).type = t.type
    ∧ (clearCat cid t).currency = t.currency ∧ (clearCat cid t).created_at = t.created_at
    ∧ (clearCat cid t).user_id = t.user_id := by
  unfold clearCat
  by_cases h : t.category_id = some cid <;> simp [h]

theorem deleteCategory_some (s : Store) (cid : String) (cats : List Category)
    (hcats : s.categoriesKey = some cats) :
    deleteCategory cid s = removeDeletedCategoryFromTransactions cid
      { s with categoriesKey := some (cats.filter (fun c => decide (¬ c.id = cid))) } := by
  simp [deleteCategory, hcats]

theorem removeDeleted_transactionsKey (cid : String) (s : Store) :
    (removeDeletedCategoryFromTransactions cid s).transactionsKey
      = s.transactionsKey.map (fun ts => ts.map (clearCat cid)) := by
  unfold removeDeletedCategoryFromTransactions
  cases htx : s.transactionsKey <;> simp [htx]

theorem removeDeleted_categoriesKey (cid : String) (s : Store) :
    (removeDeletedCategoryFromTransactions cid s).categoriesKey = s.categoriesKey := by
  unfold removeDeletedCategoryFromTransactions
  cases htx : s.transactionsKey <;> simp [htx]

/-- Claim C5: for a store whose categories collection holds a category with
the given id and whose transactions reference it (any number of them, by any
owner), deleteCategory removes every category with that id and maps the
reference-clearing step over the whole transaction collection, so that
afterwards no stored transaction carries the deleted id and the number of
stored transactions is unchanged (the N referencing transactions survive
with category_id cleared). -/
theorem C5_deleteCategory_cascade (s : Store) (cid : String) (cats : List Category)
    (hcats : s.categoriesKey = some cats) (hex : ∃ c ∈ cats, c.id = cid) :
    ((deleteCategory cid s).categoriesKey
        = some (cats.filter (fun c => decide (¬ c.id = cid))))
    ∧ (∀ c ∈ ((deleteCategory cid s).categoriesKey).getD [], ¬ c.id = cid)
    ∧ ((deleteCategory cid s).transactionsKey
        = s.transactionsKey.map (fun ts => ts.map (clearCat cid)))
    ∧ (∀ t ∈ ((deleteCategory cid s).transactionsKey).getD [], ¬ t.category_id = some cid)
    ∧ (((deleteCategory cid s).transactionsKey).map List.length
        = (s.transactionsKey).map List.length) := by
  rw [deleteCategory_some s cid cats hcats]
  refine ⟨?_, ?_, ?_, ?_, ?_⟩
  · rw [removeDeleted_categoriesKey]
  · rw [removeDeleted_categoriesKey]
    intro c hc
    have hc2 : c ∈ cats.filter (fun c => decide (¬ c.id = cid)) := by simpa using hc
    simpa using List.of_mem_filter hc2
  · rw [removeDeleted_transactionsKey]
  · rw [removeDeleted_transactionsKey]
    cases htx : s.transactionsKey with
    | none => simp
    | some ts =>
        intro t ht
        have ht2 : t ∈ ts.map (clearCat cid) := by simpa using ht
        rcases List.mem_map.mp ht2 with ⟨t0, _, rfl⟩
        exact clearCat_not_ref cid t0
  · rw [removeDeleted_transactionsKey]
    cases htx : s.transactionsKey <;> simp

/-- Claim C5 witness: a store with a category c1 referenced by a transaction
of its owner and one of another owner; after deleteCategory no transaction
references c1. -/
theorem C5_witness :
    (({ categoriesKey := some [⟨"c1", "Food", TxType.expense, some 400, "u", 0⟩],
        transactionsKey := some [⟨"t1", "lunch", 10, TxType.expense, "USD", 5, "u", some "c1"⟩,
          ⟨"t2", "dinner", 20, TxType.expense, "USD", 6, "v", some "c1"⟩] } : Store).categoriesKey
      = some [⟨"c1", "Food", TxType.expense, some 400, "u", 0⟩])
    ∧ (∃ c ∈ [(⟨"c1", "Food", TxType.expense, some 400, "u", 0⟩ : Category)], c.id = "c1")
    ∧ (∀ t ∈ ((deleteCategory "c1"
        { categoriesKey := some [⟨"c1", "Food", TxType.expense, some 400, "u", 0⟩],
          transactionsKey := some [⟨"t1", "lunch", 10, TxType.expense, "USD", 5, "u", some "c1"⟩,
            ⟨"t2", "dinner", 20, TxType.expense, "USD", 6, "v", some "c1"⟩] }).transactionsKey).getD [],
        ¬ t.category_id = some "c1") :=
  ⟨rfl, ⟨⟨"c1", "Food", TxType.expense, some 400, "u", 0⟩, by simp, rfl⟩,
    (C5_deleteCategory_cascade _ "c1" _ rfl
      ⟨⟨"c1", "Food", TxType.expense, some 400, "u", 0⟩, by simp, rfl⟩).2.2.2.1⟩

theorem store_eq_of (s : Store) {ck tk}
    (h1 : s.categoriesKey = ck) (h2 : s.transactionsKey = tk) :
    ({ categoriesKey := ck, transactionsKey := tk } : Store) = s := by
  cases s
  simp_all

/-- Claim C7 (amended): deleteTransaction of an id held by no stored
transaction leaves the store unchanged, and both deletes are total
functions raising nothing; but deleteCategory of an id matching no category,
while leaving the categories unchanged, still maps the dangling-reference
clearing over the whole transaction collection; and a save whose non-empty
id matches no existing record is an insert (the record is appended), not a
no-op: the store treats save as an upsert. No operation distinguishes a
missing id by an error. -/
theorem C7_missing_id (s : Store) (tid cid nid : String) (now : Nat)
    (tr : Transaction) (cat : Category) :
    ((∀ t ∈ s.transactionsKey.getD [], ¬ t.id = tid) → deleteTransaction tid s = s)
    ∧ (s.categoriesKey = none → deleteCategory cid s = s)
    ∧ (∀ cats, s.categoriesKey = some cats → (∀ c ∈ cats, ¬ c.id = cid) →
        (deleteCategory cid s).categoriesKey = s.categoriesKey
        ∧ (deleteCategory cid s).transactionsKey
            = s.transactionsKey.map (fun ts => ts.map (clearCat cid)))
    ∧ (¬ tr.id = "" → (∀ t ∈ s.transactionsKey.getD [], ¬ t.id = tr.id) →
        (saveTransaction tr nid now s).2.transactionsKey
          = some (s.transactionsKey.getD [] ++ [tr]))
    ∧ (¬ cat.id = "" → (∀ c ∈ s.categoriesKey.getD [], ¬ c.id = cat.id) →
        (saveCategory cat nid now s).2.categoriesKey
          = some (s.categoriesKey.getD [] ++ [cat])) := by
  refine ⟨?_, ?_, ?_, ?_, ?_⟩
  · intro hnone
    unfold deleteTransaction
    cases htx : s.transactionsKey with
    | none => rfl
    | some ts =>
        simp only []
        have hfil : ts.filter (fun t => decide (¬ t.id = tid)) = ts := by
          rw [List.filter_eq_self]
          intro t ht
          have := hnone t (by rw [htx]; simpa using ht)
          simpa using this
        rw [hfil]
        exact store_eq_of s rfl htx
  · intro hnone
    unfold deleteCategory
    rw [hnone]
  · intro cats hcats hnone
    rw [deleteCategory_some s cid cats hcats]
    constructor
    · rw [removeDeleted_categoriesKey, hcats]
      have hfil : cats.filter (fun c => decide (¬ c.id = cid)) = cats := by
        rw [List.filter_eq_self]
        intro c hc
        simpa using hnone c hc
      rw [hfil]
    · rw [removeDeleted_transactionsKey]
  · intro hne hnone
    unfold saveTransaction
    rw [if_neg hne]
    have hidx : (s.transactionsKey.getD []).findIdx? (fun t => decide (t.id = tr.id))
        = none := by
      rw [List.findIdx?_eq_none_iff]
      intro t ht
      simpa using hnone t ht
    rw [hidx]
  · intro hne hnone
    unfold saveCategory
    rw [if_neg hne]
    have hidx : (s.categoriesKey.getD []).findIdx? (fun c => decide (c.id = cat.id))
        = none := by
      rw [List.findIdx?_eq_none_iff]
      intro c hc
      simpa using hnone c hc
    rw [hidx]

/-- Claim C7 witness: on a store with one unrelated transaction and no
categories key, deleting a missing transaction id is the identity and an
update-save with an unknown non-empty id appends the record. -/
theorem C7_witness :
    (∀ t ∈ ((⟨none, some [⟨"t1", "d", 5, TxType.expense, "USD", 1, "u", none⟩]⟩ :
        Store)).transactionsKey.getD [], ¬ t.id = "zzz")
    ∧ deleteTransaction "zzz"
        ⟨none, some [⟨"t1", "d", 5, TxType.expense, "USD", 1, "u", none⟩]⟩
      = ⟨none, some [⟨"t1", "d", 5, TxType.expense, "USD", 1, "u", none⟩]⟩
    ∧ (saveTransaction ⟨"x", "d", 5, TxType.expense, "USD", 1, "u", none⟩ "n" 9
        ⟨none, some [⟨"t1", "d", 5, TxType.expense, "USD", 1, "u", none⟩]⟩).2.transactionsKey
      = some [⟨"t1", "d", 5, TxType.expense, "USD", 1, "u", none⟩,
          ⟨"x", "d", 5, TxType.expense, "USD", 1, "u", none⟩] := by
  have hbig := C7_missing_id
    ⟨none, some [⟨"t1", "d", 5, TxType.expense, "USD", 1, "u", none⟩]⟩
    "zzz" "zzz" "n" 9 ⟨"x", "d", 5, TxType.expense, "USD", 1, "u", none⟩
    ⟨"c", "n", TxType.expense, none, "u", 0⟩
  have hmem : ∀ t ∈ ((⟨none, some [⟨"t1", "d", 5, TxType.expense, "USD", 1, "u", none⟩]⟩ :
      Store)).transactionsKey.getD [], ¬ t.id = "zzz" := by decide
  have hmem2 : ∀ t ∈ ((⟨none, some [⟨"t1", "d", 5, TxType.expense, "USD", 1, "u", none⟩]⟩ :
      Store)).transactionsKey.getD [], ¬ t.id = "x" := by decide
  exact ⟨hmem, hbig.1 hmem, hbig.2.2.2.1 (by decide) hmem2⟩

/-- Claim C7 counterexample: a save whose non-empty id matches no stored
record is not a no-op: on a store with an empty transaction collection it
inserts the record, changing the store. -/
theorem C7_cx :
    (saveTransaction ⟨"x", "d", 5, TxType.expense, "USD", 1, "u", none⟩ "n" 9
        ⟨none, some []⟩).2.transactionsKey
      = some [⟨"x", "d", 5, TxType.expense, "USD", 1, "u", none⟩]
    ∧ (saveTransaction ⟨"x", "d", 5, TxType.expense, "USD", 1, "u", none⟩ "n" 9
        ⟨none, some []⟩).2
      ≠ (⟨none, some []⟩ : Store) := by
  constructor
  · rfl
  · decide

/-- Claim C10 (amended): whenever the categories storage key is present,
deleteCategory maps the reference-clearing step over every stored
transaction of every owner: a transaction whose category_id equals the
deleted id has exactly that one field cleared and a transaction not
referencing it is untouched, while the categories list only loses the
entries with the deleted id; when the categories key is absent the
operation is a complete no-op and dangling references survive. -/
theorem C10_frame (s : Store) (cid : String) (cats : List Category)
    (hcats : s.categoriesKey = some cats) :
    ((deleteCategory cid s).transactionsKey
        = s.transactionsKey.map (fun ts => ts.map (clearCat cid)))
    ∧ ((deleteCategory cid s).categoriesKey
        = some (cats.filter (fun c => decide (¬ c.id = cid))))
    ∧ (∀ t : Transaction, t.category_id = some cid →
        clearCat cid t = { t with category_id := none })
    ∧ (∀ t : Transaction, ¬ t.category_id = some cid → clearCat cid t = t)
    ∧ (∀ t : Transaction, (clearCat cid t).id = t.id
        ∧ (clearCat cid t).description = t.description
        ∧ (clearCat cid t).amount = t.amount ∧ (clearCat cid t).type = t.type
        ∧ (clearCat cid t).currency = t.currency
        ∧ (clearCat cid t).created_at = t.created_at
        ∧ (clearCat cid t).user_id = t.user_id) := by
  rw [deleteCategory_some s cid cats hcats]
  exact ⟨removeDeleted_transactionsKey cid _, removeDeleted_categoriesKey cid _,
    fun t ht => clearCat_of_ref cid t ht, fun t ht => clearCat_of_not_ref cid t ht,
    fun t => clearCat_frame cid t⟩

/-- Claim C10 witness: with the categories key present (an empty list), the
cascade clears the references of both owners while keeping every other
field. -/
theorem C10_witness :
    ((⟨some [], some [⟨"t1", "d", 5, TxType.expense, "USD", 1, "u", some "c1"⟩,
        ⟨"t2", "e", 6, TxType.income, "EUR", 2, "v", some "c1"⟩]⟩ : Store)).categoriesKey
      = some []
    ∧ (deleteCategory "c1"
        ⟨some [], some [⟨"t1", "d", 5, TxType.expense, "USD", 1, "u", some "c1"⟩,
          ⟨"t2", "e", 6, TxType.income, "EUR", 2, "v", some "c1"⟩]⟩).transactionsKey
      = ((⟨some [], some [⟨"t1", "d", 5, TxType.expense, "USD", 1, "u", some "c1"⟩,
          ⟨"t2", "e", 6, TxType.income, "EUR", 2, "v", some "c1"⟩]⟩ : Store)).transactionsKey.map
          (fun ts => ts.map (clearCat "c1")) :=
  ⟨rfl, (C10_frame _ "c1" [] rfl).1⟩

/-- Claim C10 counterexample: when the categories storage key is absent,
deleteCategory returns early and the cascade never runs, so a transaction
referencing the deleted id keeps its dangling reference. -/
theorem C10_cx :
    deleteCategory "c1"
        ⟨none, some [⟨"t1", "d", 5, TxType.expense, "USD", 1, "u", some "c1"⟩]⟩
      = ⟨none, some [⟨"t1", "d", 5, TxType.expense, "USD", 1, "u", some "c1"⟩]⟩
    ∧ ((deleteCategory "c1"
        ⟨none, some [⟨"t1", "d", 5, TxType.expense, "USD", 1, "u", some "c1"⟩]⟩).transactionsKey).getD []
      = [⟨"t1", "d", 5, TxType.expense, "USD", 1, "u", some "c1"⟩]
    ∧ (⟨"t1", "d", 5, TxType.expense, "USD", 1, "u", some "c1"⟩ : Transaction).category_id
      = some "c1" :=
  ⟨rfl, rfl, rfl⟩

/-- Claim C8 (amended): saving a transaction with empty id into a store that
holds no record agreeing with it on every field except id and created_at,
then listing the transactions of its owner, yields a list sorted by
created_at descending that contains the saved record — equal to the input
except that id is now the generated non-empty id and created_at is now the
save time — and exactly one record matching the input up to id and
created_at; without the no-prior-duplicate hypothesis a store already
holding such a record yields two matches. -/
theorem C8_roundtrip (s : Store) (t : Transaction) (o nid : String) (now : Nat)
    (hid : t.id = "") (howner : t.user_id = o) (hnid : ¬ nid = "")
    (hnopre : ∀ r ∈ s.transactionsKey.getD [], ¬ matchesExceptIdCreated r t) :
    ((saveTransaction t nid now s).1.id = nid)
    ∧ (¬ (saveTransaction t nid now s).1.id = "")
    ∧ ((saveTransaction t nid now s).1.created_at = now)
    ∧ matchesExceptIdCreated (saveTransaction t nid now s).1 t
    ∧ (saveTransaction t nid now s).1 ∈ getTransactions o (saveTransaction t nid now s).2
    ∧ (getTransactions o (saveTransaction t nid now s).2).countP
        (fun r => decide (matchesExceptIdCreated r t)) = 1
    ∧ List.Pairwise (fun a b => b.created_at ≤ a.created_at)
        (getTransactions o (saveTransaction t nid now s).2) := by
  have hsave : saveTransaction t nid now s
      = ({ t with id := nid, created_at := now },
         { s with transactionsKey := some (s.transactionsKey.getD [] ++ [{ t with id := nid, created_at := now }]) }) := by
    simp [saveTransaction, hid]
  rw [hsave]
  have hmatch : matchesExceptIdCreated { t with id := nid, created_at := now } t :=
    ⟨rfl, rfl, rfl, rfl, rfl, rfl⟩
  have hget : getTransactions o
      { s with transactionsKey := some (s.transactionsKey.getD [] ++ [{ t with id := nid, created_at := now }]) }
      = sortByCreatedDesc ((s.transactionsKey.getD []
          ++ [{ t with id := nid, created_at := now }]).filter
            (fun tx => decide (tx.user_id = o))) := rfl
  have hfil : (s.transactionsKey.getD []
      ++ [{ t with id := nid, created_at := now }]).filter (fun tx => decide (tx.user_id = o))
      = (s.transactionsKey.getD []).filter (fun tx => decide (tx.user_id = o))
        ++ [{ t with id := nid, created_at := now }] := by
    rw [List.filter_append]
    simp [howner]
  have hperm := perm_sortByCreatedDesc ((s.transactionsKey.getD []
      ++ [{ t with id := nid, created_at := now }]).filter (fun tx => decide (tx.user_id = o)))
  refine ⟨rfl, hnid, rfl, hmatch, ?_, ?_, ?_⟩
  · rw [hget]
    rw [hperm.mem_iff, hfil]
    simp
  · rw [hget, hperm.countP_eq, hfil, List.countP_append]
    have hzero : ((s.transactionsKey.getD []).filter
        (fun tx => decide (tx.user_id = o))).countP
          (fun r => decide (matchesExceptIdCreated r t)) = 0 := by
      rw [List.countP_eq_zero]
      intro r hr
      have hrts : r ∈ s.transactionsKey.getD [] := List.mem_of_mem_filter hr
      simpa using hnopre r hrts
    rw [hzero]
    simp [List.countP_cons, hmatch]
  · rw [hget]
    exact pairwise_sortByCreatedDesc _

/-- Claim C8 witness: saving a fresh expense into a store holding one other
record of the same owner and listing gives the saved record once, with the
generated id and timestamp, in a descending-sorted list. -/
theorem C8_witness :
    ((⟨"", "coffee", 3, TxType.expense, "USD", 0, "u", none⟩ : Transaction).id = "")
    ∧ ((⟨"", "coffee", 3, TxType.expense, "USD", 0, "u", none⟩ : Transaction).user_id = "u")
    ∧ ¬ ("gen1" : String) = ""
    ∧ (∀ r ∈ ((⟨none, some [⟨"t1", "rent", 900, TxType.expense, "USD", 4, "u", none⟩]⟩ :
        Store)).transactionsKey.getD [],
        ¬ matchesExceptIdCreated r ⟨"", "coffee", 3, TxType.expense, "USD", 0, "u", none⟩)
    ∧ ((saveTransaction ⟨"", "coffee", 3, TxType.expense, "USD", 0, "u", none⟩ "gen1" 9
        ⟨none, some [⟨"t1", "rent", 900, TxType.expense, "USD", 4, "u", none⟩]⟩).1.id = "gen1")
    ∧ (getTransactions "u"
        (saveTransaction ⟨"", "coffee", 3, TxType.expense, "USD", 0, "u", none⟩ "gen1" 9
          ⟨none, some [⟨"t1", "rent", 900, TxType.expense, "USD", 4, "u", none⟩]⟩).2).countP
        (fun r => decide (matchesExceptIdCreated r
          ⟨"", "coffee", 3, TxType.expense, "USD", 0, "u", none⟩)) = 1 := by
  have hpre : ∀ r ∈ ((⟨none, some [⟨"t1", "rent", 900, TxType.expense, "USD", 4, "u", none⟩]⟩ :
      Store)).transactionsKey.getD [],
      ¬ matchesExceptIdCreated r ⟨"", "coffee", 3, TxType.expense, "USD", 0, "u", none⟩ := by
    intro r hr
    have hr2 : r = ⟨"t1", "rent", 900, TxType.expense, "USD", 4, "u", none⟩ := by
      simpa using hr
    subst hr2
    intro hm
    have := hm.1
    simp at this
  have hbig := C8_roundtrip
    ⟨none, some [⟨"t1", "rent", 900, TxType.expense, "USD", 4, "u", none⟩]⟩
    ⟨"", "coffee", 3, TxType.expense, "USD", 0, "u", none⟩ "u" "gen1" 9
    rfl rfl (by decide) hpre
  exact ⟨rfl, rfl, by decide, hpre, hbig.1, hbig.2.2.2.2.2.1⟩

/-- Claim C8 counterexample: when the store already holds a record equal to
the input in every field except id and created_at, the list after the save
contains two such records, not exactly one. -/
theorem C8_cx :
    (getTransactions "u"
      (saveTransaction ⟨"", "coffee", 3, TxType.expense, "USD", 0, "u", none⟩ "gen1" 9
        ⟨none, some [⟨"old", "coffee", 3, TxType.expense, "USD", 4, "u", none⟩]⟩).2).countP
      (fun r => decide (matchesExceptIdCreated r
        ⟨"", "coffee", 3, TxType.expense, "USD", 0, "u", none⟩)) = 2 := by
  decide

theorem any_of_alookE_some {κ β : Type} [DecidableEq κ] {k : κ} {m : List (κ × β)}
    {e : κ × β} (h : alookE k m = some e) :
    (m.any (fun x => decide (x.1 = k))) = true := by
  rw [any_key_iff]
  by_contra hmem
  rw [← alookE_eq_none_iff] at hmem
  rw [hmem] at h
  exact Option.noConfusion h

theorem runHandlers_no_throw (θ : Nat → Bool) (hs : List Nat)
    (h : ∀ g ∈ hs, θ g = false) : runHandlers θ hs = (hs, false) := by
  induction hs with
  | nil => rfl
  | cons g gs ih =>
      have hg : θ g = false := h g (List.mem_cons_self g gs)
      simp only [runHandlers, hg]
      rw [ih (fun x hx => h x (List.mem_cons_of_mem g hx))]
      simp

theorem runHandlers_throw (θ : Nat → Bool) (pre : List Nat) (h : Nat) (post : List Nat)
    (hpre : ∀ g ∈ pre, θ g = false) (hh : θ h = true) :
    runHandlers θ (pre ++ h :: post) = (pre ++ [h], true) := by
  induction pre with
  | nil => simp [runHandlers, hh]
  | cons g gs ih =>
      have hg : θ g = false := hpre g (List.mem_cons_self g gs)
      have ih2 := ih (fun x hx => hpre x (List.mem_cons_of_mem g hx))
      simp [List.cons_append, runHandlers, hg, ih2]

theorem alookE_onEvent (event : String) (h : Nat) (b : EventBus) :
    alookE event (onEvent event h b).events
      = some (event, ((alookE event b.events).map (fun e => e.2)).getD [] ++ [h]) := by
  have hf : ∀ e : String × List Nat,
      ((fun e : String × List Nat =>
        if e.1 = event then (e.1, e.2 ++ [h]) else e) e).1 = e.1 := by
    intro e; by_cases he : e.1 = event <;> simp [he]
  simp only [onEvent]
  by_cases hany : (b.events.any (fun e => decide (e.1 = event))) = true
  · rw [if_pos hany]
    rw [alookE_map_fst hf]
    cases hlook : alookE event b.events with
    | none =>
        rw [alookE_eq_none_iff] at hlook
        exact absurd ((any_key_iff event b.events).mp hany) hlook
    | some e =>
        have hk : e.1 = event := alookE_key hlook
        simp [hk]
  · rw [if_neg hany]
    have hnone : alookE event b.events = none := by
      rw [alookE_eq_none_iff]
      intro hmem
      exact hany ((any_key_iff event b.events).mpr hmem)
    rw [alookE_map_fst hf, alookE_append, hnone]
    simp [alookE]

theorem alookE_onEvent_other (event e2 : String) (h : Nat) (b : EventBus)
    (hne : ¬ e2 = event) :
    alookE e2 (onEvent event h b).events = alookE e2 b.events := by
  have hf : ∀ e : String × List Nat,
      ((fun e : String × List Nat =>
        if e.1 = event then (e.1, e.2 ++ [h]) else e) e).1 = e.1 := by
    intro e; by_cases he : e.1 = event <;> simp [he]
  simp only [onEvent]
  by_cases hany : (b.events.any (fun e => decide (e.1 = event))) = true
  · rw [if_pos hany, alookE_map_fst hf]
    cases hlook : alookE e2 b.events with
    | none => simp
    | some e =>
        have hk : e.1 = e2 := alookE_key hlook
        have hne2 : ¬ e.1 = event := by rw [hk]; exact hne
        simp [hne2]
  · rw [if_neg hany, alookE_map_fst hf, alookE_append]
    cases hlook : alookE e2 b.events with
    | none =>
        simp only [alookE]
        have : ¬ (event, ([] : List Nat)).1 = e2 := fun hc => hne hc.symm
        simp [this]
    | some e =>
        have hk : e.1 = e2 := alookE_key hlook
        have hne2 : ¬ e.1 = event := by rw [hk]; exact hne
        simp [hne2]

theorem unsub_eq_some (event : String) (hid : Nat) (b : EventBus)
    {entry : String × List Nat} (hlook : alookE event b.events = some entry) :
    unsub event hid b = some { events := b.events.map (fun e =>
      if e.1 = event then (e.1, e.2.filter (fun g => decide (¬ g = hid))) else e) } := by
  unfold unsub
  rw [if_pos (any_of_alookE_some hlook)]

/-- Claim C6 (amended): emit runs the callbacks of the event in registration
order (a new subscription lands at the end of the list of its event); when
no registered callback throws, every currently-registered callback is
invoked exactly once, in order, and no exception escapes; but a callback
that throws aborts the dispatch: the callbacks before it ran, its exception
escapes, and the callbacks registered after it are never invoked — the
source has no per-callback isolation. -/
theorem C6_emit (event : String) (θ : Nat → Bool) (b : EventBus)
    (hs pre post : List Nat) (h : Nat)
    (hlook : alookE event b.events = some (event, hs)) :
    ((∀ g ∈ hs, θ g = false) → emit event θ b = (hs, false))
    ∧ (hs = pre ++ h :: post → (∀ g ∈ pre, θ g = false) → θ h = true →
        emit event θ b = (pre ++ [h], true))
    ∧ (alookE event (onEvent event h b).events).map (fun e => e.2) = some (hs ++ [h]) := by
  refine ⟨?_, ?_, ?_⟩
  · intro hno
    unfold emit
    rw [hlook]
    exact runHandlers_no_throw θ hs hno
  · intro hsplit hpre hh
    unfold emit
    rw [hlook]
    rw [hsplit]
    exact runHandlers_throw θ pre h post hpre hh
  · rw [alookE_onEvent, hlook]
    rfl

/-- Claim C6 witness: with callbacks 0 and 1 registered on one event in this
order and neither throwing, emit invokes both, in order, with no escaping
exception. -/
theorem C6_witness :
    (alookE "e" (onEvent "e" 1 (onEvent "e" 0 ⟨[]⟩)).events = some ("e", [0, 1]))
    ∧ emit "e" (fun _ => false) (onEvent "e" 1 (onEvent "e" 0 ⟨[]⟩)) = ([0, 1], false) := by
  have hlook : alookE "e" (onEvent "e" 1 (onEvent "e" 0 ⟨[]⟩)).events = some ("e", [0, 1]) := by
    decide
  exact ⟨hlook,
    (C6_emit "e" (fun _ => false) _ [0, 1] [] [] 0 hlook).1 (by decide)⟩

/-- Claim C6 counterexample: callbacks 0 and 1 are registered for the event,
callback 0 throws, and emit invokes only callback 0 — the registered
callback 1 is never run, so a throwing handler does prevent the subsequent
handlers from running. -/
theorem C6_cx :
    emit "e" (fun g => decide (g = 0)) (onEvent "e" 1 (onEvent "e" 0 ⟨[]⟩)) = ([0], true)
    ∧ (alookE "e" (onEvent "e" 1 (onEvent "e" 0 ⟨[]⟩)).events).map (fun e => e.2)
        = some [0, 1]
    ∧ 1 ∉ ([0] : List Nat) := by
  refine ⟨by decide, by decide, by decide⟩

/-- Claim C9 (amended): the unsubscribe closure returned by on removes every
registration of its callback reference for the event (the callback list is
filtered by reference inequality, so a callback registered twice loses both
registrations at the first call), leaves other events untouched, and is
idempotent; consequently for a callback not yet registered the sequence
subscribe, publish, unsubscribe, publish invokes it exactly once in total
when no callback throws. -/
theorem C9_unsubscribe (event : String) (hid : Nat) (b : EventBus)
    (entry : String × List Nat) (hlook : alookE event b.events = some entry) :
    (∃ b1, unsub event hid b = some b1
      ∧ (alookE event b1.events).map (fun e => e.2)
          = some (entry.2.filter (fun g => decide (¬ g = hid)))
      ∧ (∀ e2, ¬ e2 = event → alookE e2 b1.events = alookE e2 b.events)
      ∧ unsub event hid b1 = some b1)
    ∧ (hid ∉ entry.2 →
        (emit event (fun _ => false) (onEvent event hid b)).1.count hid = 1
        ∧ (∀ b2, unsub event hid (onEvent event hid b) = some b2 →
            (emit event (fun _ => false) b2).1.count hid = 0)) := by
  have hf : ∀ e : String × List Nat,
      ((fun e : String × List Nat =>
        if e.1 = event then (e.1, e.2.filter (fun g => decide (¬ g = hid))) else e) e).1
        = e.1 := by
    intro e; by_cases he : e.1 = event <;> simp [he]
  have hkey : entry.1 = event := alookE_key hlook
  constructor
  · refine ⟨_, unsub_eq_some event hid b hlook, ?_, ?_, ?_⟩
    · rw [alookE_map_fst hf, hlook]
      simp [hkey]
    · intro e2 hne
      rw [alookE_map_fst hf]
      cases hlook2 : alookE e2 b.events with
      | none => simp
      | some e =>
          have hk2 : e.1 = e2 := alookE_key hlook2
          have hne2 : ¬ e.1 = event := by rw [hk2]; exact hne
          simp [hne2]
    · have hlook1 : alookE event (List.map (fun e =>
          if e.1 = event then (e.1, e.2.filter (fun g => decide (¬ g = hid))) else e) b.events)
          = some (event, entry.2.filter (fun g => decide (¬ g = hid))) := by
        rw [alookE_map_fst hf, hlook]
        simp [hkey]
      rw [unsub_eq_some event hid _ hlook1]
      refine congrArg some (congrArg EventBus.mk ?_)
      rw [List.map_map]
      refine List.map_congr_left ?_
      intro e he
      by_cases hcase : e.1 = event
      · simp only [Function.comp, hcase, if_pos]
        rw [List.filter_filter]
        simp
      · simp [Function.comp, hcase]
  · intro hfresh
    have hone := alookE_onEvent event hid b
    rw [hlook] at hone
    simp only [Option.map_some', Option.getD_some] at hone
    constructor
    · have hrun := runHandlers_no_throw (fun _ => false) (entry.2 ++ [hid]) (fun g _ => rfl)
      unfold emit
      rw [hone]
      simp only [hrun]
      simp [List.count_append, List.count_eq_zero.mpr hfresh]
    · intro b2 hb2
      rw [unsub_eq_some event hid _ hone] at hb2
      have hb2e : b2 = { events := (onEvent event hid b).events.map (fun e =>
          if e.1 = event then (e.1, e.2.filter (fun g => decide (¬ g = hid))) else e) } :=
        (Option.some.inj hb2).symm
      subst hb2e
      have hlookb2 : alookE event (({ events := (onEvent event hid b).events.map (fun e =>
          if e.1 = event then (e.1, e.2.filter (fun g => decide (¬ g = hid))) else e) } :
            EventBus)).events
          = some (event, entry.2.filter (fun g => decide (¬ g = hid))) := by
        simp only []
        rw [alookE_map_fst hf, hone]
        simp [List.filter_append]
      have hrun := runHandlers_no_throw (fun _ => false)
        (entry.2.filter (fun g => decide (¬ g = hid))) (fun g _ => rfl)
      unfold emit
      rw [hlookb2]
      simp only [hrun]
      rw [List.count_eq_zero]
      intro hmem
      have := List.of_mem_filter hmem
      simp at this

/-- Claim C9 witness: callback 5 registered for the event, callback 7 fresh;
subscribing 7, publishing, unsubscribing 7 and publishing again invokes 7
exactly once in total (once before the unsubscribe, zero times after). -/
theorem C9_witness :
    (alookE "e" (onEvent "e" 5 ⟨[]⟩).events = some ("e", [5]))
    ∧ (7 : Nat) ∉ [5]
    ∧ ((emit "e" (fun _ => false) (onEvent "e" 7 (onEvent "e" 5 ⟨[]⟩))).1.count 7 = 1)
    ∧ (∀ b2, unsub "e" 7 (onEvent "e" 7 (onEvent "e" 5 ⟨[]⟩)) = some b2 →
        (emit "e" (fun _ => false) b2).1.count 7 = 0) := by
  have hlook : alookE "e" (onEvent "e" 5 ⟨[]⟩).events = some ("e", [5]) := by decide
  have hbig := C9_unsubscribe "e" 7 (onEvent "e" 5 ⟨[]⟩) ("e", [5]) hlook
  have hs := hbig.2 (by decide)
  exact ⟨hlook, by decide, hs.1, hs.2⟩

/-- Claim C9 counterexample: the same callback reference registered twice for
one event; before the unsubscribe the registration list is the duplicate
pair, and one call of the returned unsubscribe function removes both
registrations — not exactly the one registration it was created by — so the
remaining list is empty rather than a single registration. -/
theorem C9_cx :
    ((unsub "e" 7 (onEvent "e" 7 (onEvent "e" 7 ⟨[]⟩))).map
        (fun b => (alookE "e" b.events).map (fun e => e.2)))
      = some (some [])
    ∧ some (some ([] : List Nat)) ≠ some (some [7])
    ∧ (alookE "e" (onEvent "e" 7 (onEvent "e" 7 ⟨[]⟩)).events).map (fun e => e.2)
      = some [7, 7] := by
  refine ⟨by decide, by decide, by decide⟩

end FinTrack
